import Mathlib

/-!
Shallow embedding of the Finding_Friends repository (agents.py, mechanisms.py,
game.py) and verification of the frozen claims about its specification.

Conventions:
- Python lists of integer levels become `List ℤ`; skill vectors become `List ℚ`
  (skills are combined with true division, so rational arithmetic is the
  faithful model of the exact values).
- Random draws are passed in explicitly: a uniform deviate in [0,1) becomes a
  `ℚ` argument, a uniform choice out of a list becomes a natural-number index
  into that list, and an injected outcome sampler becomes a function `ℚ → ℤ`.
- Agent method calls made by a mechanism are passed in as function arguments,
  so every agent variant (and adversarial variants) can be plugged in.
-/

/-- Embedding of the Python statement `xs[k] += c` on a list of integers:
adds `c` at position `k`, leaving the list unchanged when `k` is out of range. -/
def addAt : List ℤ → ℕ → ℤ → List ℤ
  | [], _, _ => []
  | x :: xs, 0, c => (x + c) :: xs
  | x :: xs, k + 1, c => x :: addAt xs k c

/-- Embedding of the increment step shared by all three mechanisms
(mechanisms.py lines 104-105, 154-155, 212-213):
`new_levels[king] += increase; new_levels[friend] += increase`. -/
def applyInc (levels : List ℤ) (king friend : ℕ) (inc : ℤ) : List ℤ :=
  addAt (addAt levels king inc) friend inc

/-- Embedding of `sample_bernoulli` (mechanisms.py lines 235-239), with the
uniform deviate `u` drawn by `np.random.random()` made explicit:
returns 1 when `u < p`, else 0. -/
def sample_bernoulli (u p : ℚ) : ℤ :=
  if u < p then 1 else 0

/-- Embedding of `Game._is_game_over` (game.py lines 55-71): true when some
level is at or above the cap. -/
def game_over (cap : ℤ) (levels : List ℤ) : Bool :=
  levels.any (fun v => decide (cap ≤ v))

/-- Embedding of `Baseline_Mechanism.play` (mechanisms.py lines 94-107).
The king agent is abstracted as its `pick_friends(levels, cap)` function
`pickB`; the injected sampler is `samp`. The Python `assert(friend != player.id)`
is modelled by an `Except.error` result, in which case no sampling or level
update happens (the assert fires before the sample line). -/
def baseline_play (p : ℚ) (samp : ℚ → ℤ) (pickB : List ℤ → ℤ → ℕ)
    (king : ℕ) (levels : List ℤ) (cap : ℤ) : Except String (List ℤ) :=
  let friend := pickB levels cap
  if friend = king then Except.error "assertion failed: friend equals king"
  else
    let inc := samp p
    Except.ok (applyInc levels king friend inc)

/-- Embedding of `Skill_Mechanism.play` (mechanisms.py lines 141-157).
The king agent is abstracted as its `pick_friends(levels, cap, skills)`
function `pickS`. There is no assertion in the source: the function is total
and always applies the sampled increment. -/
def skill_play (samp : ℚ → ℤ) (pickS : List ℤ → ℤ → List ℚ → ℕ)
    (skills : List ℚ) (king : ℕ) (levels : List ℤ) (cap : ℤ) : List ℤ :=
  let friend := pickS levels cap skills
  let p := (skills.getD king 0 + skills.getD friend 0) / skills.sum
  let inc := samp p
  applyInc levels king friend inc

/-- Embedding of `Sabotage_Mechanism.play` (mechanisms.py lines 194-215).
The king agent is abstracted as `pickS` and the chosen friend agent as its
`decide_sabotage(king, levels, cap, skills)` function `dec`. No assertion in
the source. When sabotage is declared, the success probability excludes the
friend skill from numerator and denominator; either way the sampled increment
is applied to both the king entry and the friend entry. -/
def sabotage_play (samp : ℚ → ℤ) (pickS : List ℤ → ℤ → List ℚ → ℕ)
    (dec : ℕ → List ℤ → ℤ → List ℚ → Bool)
    (skills : List ℚ) (king : ℕ) (levels : List ℤ) (cap : ℤ) : List ℤ :=
  let friend := pickS levels cap skills
  let sabotage := dec king levels cap skills
  let p :=
    if sabotage then skills.getD king 0 / (skills.sum - skills.getD friend 0)
    else (skills.getD king 0 + skills.getD friend 0) / skills.sum
  let inc := samp p
  applyInc levels king friend inc

/-- Stable insertion of an element into a sorted list of elements that came
after it: the element lands before the first element that is not strictly
`lt` it, hence before any equal element, preserving original order. -/
def stableInsert {α : Type} (lt : α → α → Bool) (a : α) : List α → List α
  | [] => [a]
  | b :: rest => if lt b a then b :: stableInsert lt a rest else a :: b :: rest

/-- Stable ascending sort by a strict boolean order, modelling Python
`sorted` (a stable sort; all stable sorts produce the same output, so
insertion sort is a faithful model, and it reduces inside the kernel). -/
def stableSort {α : Type} (lt : α → α → Bool) : List α → List α
  | [] => []
  | a :: rest => stableInsert lt a (stableSort lt rest)

/-- Embedding of the candidate scan loop inside `Strategic_Skilled_Agent.pick_friends`
(agents.py lines 155-162). The Python loop reads
`candidates_skills[len(skill_levels) - 2 - i]` for `i = 0 .. len(skill_levels) - 2`,
which visits the ascending-sorted candidate list from its last element down to
its first; this function performs that scan over the reversed list, returning
the first candidate index whose level plus `cap / 10` is at most the level of
the calling agent. -/
def scanSkills (levels : List ℤ) (selfLevel : ℤ) (cap : ℤ) :
    List (ℕ × ℚ) → Option ℕ
  | [] => none
  | c :: rest =>
    if (levels.getD c.1 0 : ℚ) + (cap : ℚ) / 10 ≤ (selfLevel : ℚ) then some c.1
    else scanSkills levels selfLevel cap rest

/-- Embedding of `Strategic_Skilled_Agent.pick_friends` (agents.py lines 142-164).
Candidates are the (index, value) pairs with the entry of the calling agent
removed; both candidate lists are sorted ascending by value with a stable sort
(Python `sorted`, modelled by `stableSort`). The skill candidates are
scanned in descending skill order; if no candidate passes the level test the
first (lowest-level) entry of the level-sorted candidates is returned. -/
def strategic_pick (id : ℕ) (levels : List ℤ) (cap : ℤ) (skills : List ℚ) : ℕ :=
  let candidates_levels := (levels.enum).eraseIdx id
  let self_level := levels.getD id 0
  let sorted_levels := stableSort (fun a b => decide (a.2 < b.2)) candidates_levels
  let sorted_skills := stableSort (fun a b => decide (a.2 < b.2)) ((skills.enum).eraseIdx id)
  match scanSkills levels self_level cap sorted_skills.reverse with
  | some j => j
  | none => (sorted_levels.headD (0, 0)).1

/-- Written from the words of the specification, for comparison with
`strategic_pick`: examine the other players in descending order of skill and
select the first whose level plus the margin `cap / 10` is at most the level
of the calling agent; if none qualifies, fall back to the lowest-level other
player, ties broken by the stable sort order. -/
def strategic_pick_spec (id : ℕ) (levels : List ℤ) (cap : ℤ) (skills : List ℚ) : ℕ :=
  let ownLevel := levels.getD id 0
  let byDescSkill :=
    (stableSort (fun a b => decide (a.2 < b.2)) ((skills.enum).eraseIdx id)).reverse
  match byDescSkill.find?
      (fun c => decide ((levels.getD c.1 0 : ℚ) + (cap : ℚ) / 10 ≤ (ownLevel : ℚ))) with
  | some c => c.1
  | none =>
    ((stableSort (fun a b => decide (a.2 < b.2)) ((levels.enum).eraseIdx id)).headD (0, 0)).1

/-- One call made by `Game.reward` to `Agent.accept_reward` (the receiving
player id, the reward value, and the `done` flag; the `levels`/`cap` keyword
arguments passed on non-terminal rounds are not modelled). -/
structure RewardCall where
  pid : ℕ
  reward : ℚ
  done : Bool
deriving DecidableEq, Repr

/-- Embedding of `Game.reward` (game.py lines 73-111) as the list of
`accept_reward` calls it makes, in order. `ids` is the list of player ids in
player order, `kingId` the id of the acting player. The terminal branch
handles the reward types WINNERTAKEALL, PROPORTIONAL and RANKED; any other
reward type (WOT included) falls through that if/elif chain and produces no
calls. The win and lose rewards are `float(cap)` and `float(-cap)`
(game.py lines 52-53). -/
def game_reward (reward_type : String) (ids : List ℕ) (cap : ℤ)
    (kingId : ℕ) (old_levels new_levels : List ℤ) : List RewardCall :=
  if game_over cap new_levels then
    if reward_type = "WINNERTAKEALL" then
      ids.map (fun i =>
        if cap ≤ new_levels.getD i 0 then ⟨i, (cap : ℚ), true⟩
        else ⟨i, ((-cap : ℤ) : ℚ), true⟩)
    else if reward_type = "PROPORTIONAL" then
      ids.map (fun i => ⟨i, (new_levels.getD i 0 : ℚ) / ((new_levels.sum : ℤ) : ℚ), true⟩)
    else if reward_type = "RANKED" then
      ids.map (fun i =>
        ⟨i, (ids.length : ℚ) -
            (ids.countP (fun j => decide (new_levels.getD i 0 < new_levels.getD j 0)) : ℚ),
          true⟩)
    else []
  else
    if reward_type = "WOT" then
      [⟨kingId, ((new_levels.getD kingId 0 - old_levels.getD kingId 0 : ℤ) : ℚ), false⟩]
    else
      [⟨kingId, 0, false⟩]

/-- Fields that `Game.__init__` (game.py lines 6-53) sets only on the
successful path, after the player-count check. Players are abstracted by
their ids. -/
structure GameObj where
  num_players : ℕ
  levels : List ℤ
  players : List ℕ
  king : ℕ
  cap : ℤ
  reward_type : String
  lose_reward : ℚ
  win_reward : ℚ
deriving DecidableEq, Repr

/-- Result of running `Game.__init__`: either a fully initialized game, or the
half-initialized object produced when the constructor logs "Not enough
players." and returns early, in which case only `num_players` has been set. -/
inductive GameInit where
  | full (g : GameObj)
  | halfInit (num_players : ℕ)
deriving DecidableEq, Repr

/-- Embedding of `Game.__init__` (game.py lines 6-53). `kingDraw` is the value
drawn by `np.random.randint(0, num_players)`. When fewer than 3 players are
supplied the constructor logs a critical message, prints, and returns early:
no exception is raised and the remaining fields are never assigned. -/
def game_init (playerIds : List ℕ) (cap : ℤ) (reward_type : String)
    (kingDraw : ℕ) : GameInit :=
  let n := playerIds.length
  if n < 3 then GameInit.halfInit n
  else
    GameInit.full
      { num_players := n
        levels := List.replicate n 0
        players := playerIds
        king := kingDraw
        cap := cap
        reward_type := reward_type
        lose_reward := ((-cap : ℤ) : ℚ)
        win_reward := (cap : ℚ)
        }

/-- One iteration of the `Game.play` loop (game.py lines 120-134) with a
`Baseline_Mechanism`: the round-`t` king asks its agent for a friend
(abstracted as the strategy function `strat`, applied to the round number,
levels and king), a Bernoulli draw at probability `p` with uniform deviate
`u t` produces the increment, the increment is applied to king and friend,
and the kingship advances by one modulo the number of players. -/
def playStep (strat : ℕ → List ℤ → ℕ → ℕ) (u : ℕ → ℚ) (p : ℚ) (N : ℕ)
    (t : ℕ) (s : List ℤ × ℕ) : List ℤ × ℕ :=
  let friend := strat t s.1 s.2
  (applyInc s.1 s.2 friend (sample_bernoulli (u t) p), (s.2 + 1) % N)

/-- State of the `Game.play` loop after `t` rounds, starting from state `s`
(levels, king), ignoring the termination test: round `r` of `Game.play`
corresponds to `playStep` at time `r - 1`. `Game.play` itself runs the loop
body exactly while `game_over` is false, so the number of rounds it plays is
the least `t` with `game_over cap (runGame ... t s).1 = true`. -/
def runGame (strat : ℕ → List ℤ → ℕ → ℕ) (u : ℕ → ℚ) (p : ℚ) (N : ℕ) :
    ℕ → List ℤ × ℕ → List ℤ × ℕ
  | 0, s => s
  | t + 1, s => playStep strat u p N t (runGame strat u p N t s)

/-- State argument of the Q table. `tup levels` is the Python tuple of all
player levels built by `pick_friends`; `term` is the Python value `(0)` (the
integer 0) that `accept_reward` passes as the next state on episode end. The
two constructors are distinct, as the integer 0 equals no tuple in Python. -/
inductive QState where
  | tup (levels : List ℤ)
  | term
deriving DecidableEq, Repr

/-- Embedding of `Q_Agent` state (agents.py lines 259-280). The `q` table is
the Python dict from (state, action) pairs to values, as an association list
in insertion order. The Option fields stand for the episode-scoped scratch
fields, `none` modelling Python None. -/
structure QAgent where
  id : ℕ
  last_state : Option QState
  last_action : Option ℕ
  last_reward : Option ℚ
  step : ℕ
  actions : List ℕ
  q : List ((QState × ℕ) × ℚ)
  epsilon : ℚ
  alpha : ℚ
  gamma : ℚ
deriving DecidableEq, Repr

/-- Embedding of Python dict lookup `d.get(k)` on the Q table. -/
def qlookup : List ((QState × ℕ) × ℚ) → QState × ℕ → Option ℚ
  | [], _ => none
  | e :: rest, k => if e.1 = k then some e.2 else qlookup rest k

/-- Embedding of Python dict assignment `d[k] = v` on the Q table: replaces
the value when the key is present, appends the binding otherwise. -/
def qset : List ((QState × ℕ) × ℚ) → QState × ℕ → ℚ → List ((QState × ℕ) × ℚ)
  | [], k, v => [(k, v)]
  | e :: rest, k, v => if e.1 = k then (k, v) :: rest else e :: qset rest k v

/-- Embedding of `Q_Agent.getQ` (agents.py lines 285-289): the tabulated value
at the (state, action) pair, or 0 if not found. -/
def getQ (q : List ((QState × ℕ) × ℚ)) (s : QState) (a : ℕ) : ℚ :=
  (qlookup q (s, a)).getD 0

/-- Embedding of Python `max` over a list of q-values. Python raises on an
empty list; the agent only applies it to `actions`, nonempty in every claim. -/
def maxList : List ℚ → ℚ
  | [] => 0
  | x :: xs => xs.foldl (fun a b => if a < b then b else a) x

/-- Embedding of `Q_Agent.learnQ` (agents.py lines 291-302): an unseen
(state, action) pair is initialized directly to the reward, a seen pair moves
by `alpha * (value - old)`. -/
def learnQ (A : QAgent) (s : QState) (a : ℕ) (reward value : ℚ) : QAgent :=
  match qlookup A.q (s, a) with
  | none => { A with q := qset A.q (s, a) reward }
  | some old => { A with q := qset A.q (s, a) (old + A.alpha * (value - old)) }

/-- Embedding of `Q_Agent.learn` (agents.py lines 318-323): the max tabulated
value at the next state feeds `learnQ` with value `reward + gamma * q_new`. -/
def q_learn (A : QAgent) (p_state : QState) (p_action : ℕ) (reward : ℚ)
    (n_state : QState) : QAgent :=
  let q_new := maxList (A.actions.map (fun a => getQ A.q n_state a))
  learnQ A p_state p_action reward (reward + A.gamma * q_new)

/-- Embedding of `Q_Agent.chooseAction` (agents.py lines 304-316) with both
random draws explicit: `randVal` is the uniform deviate compared against
epsilon, and `choiceIdx` is the position drawn by `np.random.choice` in the
list it is given (the action list in the explore branch, the list of indices
of maximal q-value in the greedy branch). -/
def chooseAction (A : QAgent) (state : QState) (randVal : ℚ) (choiceIdx : ℕ) : ℕ :=
  if randVal < A.epsilon then A.actions.getD choiceIdx 0
  else
    let q_vals := A.actions.map (fun a => getQ A.q state a)
    let max_q := maxList q_vals
    let idxs := (List.range q_vals.length).filter (fun i => decide (q_vals.getD i 0 = max_q))
    idxs.getD choiceIdx 0

/-- Embedding of `Q_Agent.pick_friends` (agents.py lines 325-339): builds the
state from the level tuple, increments the step counter, chooses an action,
learns from the previous transition when one exists, caches the new state and
action, and returns the chosen action unchanged as the friend index. The
`getD` defaults stand for Python None fields, which the `step > 1` guard keeps
from being read on the first call. -/
def q_pick (A : QAgent) (levels : List ℤ) (cap : ℤ) (randVal : ℚ)
    (choiceIdx : ℕ) : ℕ × QAgent :=
  let new_state := QState.tup levels
  let A1 := { A with step := A.step + 1 }
  let new_action := chooseAction A1 new_state randVal choiceIdx
  let A2 :=
    if 1 < A1.step then
      q_learn A1 (A1.last_state.getD QState.term) (A1.last_action.getD 0)
        (A1.last_reward.getD 0) new_state
    else A1
  (new_action, { A2 with last_action := some new_action, last_state := some new_state })

/-- Embedding of `Q_Agent.reset` (agents.py lines 276-280). -/
def qreset (A : QAgent) : QAgent :=
  { A with last_state := none, last_action := none, last_reward := none, step := 0 }

/-- Embedding of `Q_Agent.accept_reward` (agents.py lines 341-346): on
`done = true`, one final `learn` call at the cached last state and action with
the terminal reward and next state `(0)` (modelled by `QState.term`), then a
reset of the episode-scoped fields; otherwise the reward is cached. The `getD`
defaults stand for Python None, excluded when at least one `pick_friends` call
preceded. -/
def q_accept_reward (A : QAgent) (reward : ℚ) (done : Bool) : QAgent :=
  if done then
    qreset (q_learn A (A.last_state.getD QState.term) (A.last_action.getD 0)
      reward QState.term)
  else { A with last_reward := some reward }

/-- State shared by `Beta_Binomial_Agent` and `Gamma_Poisson_Agent`
(agents.py lines 173-182 and 215-224): per-partner trial and success counter
dicts (association lists in insertion order), the cached last friend and
levels, and the prior hyperparameters. `last_friend_level` is Python None at
construction; it is modelled by 0, which is never read while `last_friend`
is `none`. -/
structure BanditState where
  id : ℕ
  skill : ℚ
  trials : List (ℕ × ℕ)
  successes : List (ℕ × ℕ)
  last_friend : Option ℕ
  last_friend_level : ℤ
  last_level : ℤ
  priors : ℚ × ℚ
deriving DecidableEq, Repr

/-- Embedding of Python dict lookup `d.get(k)` on a counter dict. -/
def alookup : List (ℕ × ℕ) → ℕ → Option ℕ
  | [], _ => none
  | e :: rest, k => if e.1 = k then some e.2 else alookup rest k

/-- Embedding of Python dict assignment `d[k] = v` on a counter dict. -/
def aset : List (ℕ × ℕ) → ℕ → ℕ → List (ℕ × ℕ)
  | [], k, v => [(k, v)]
  | e :: rest, k, v => if e.1 = k then (k, v) :: rest else e :: aset rest k v

/-- Embedding of `self.successes[k] += 1`. Python raises KeyError when the key
is absent; that situation is unreachable from the initial state (the key is
always recorded by the previous call), so the absent case leaves the dict
unchanged. -/
def bump (d : List (ℕ × ℕ)) (k : ℕ) : List (ℕ × ℕ) :=
  match alookup d k with
  | some v => aset d k (v + 1)
  | none => d

/-- Embedding of the success-attribution step opening both bandit
`pick_friends` bodies (agents.py lines 192-193 and 236-237): when a last
friend exists and both that friend and this agent strictly gained levels
since the previous call, one success is recorded for that friend. -/
def bandit_attribute (A : BanditState) (levels : List ℤ) : BanditState :=
  match A.last_friend with
  | none => A
  | some f =>
    if 0 < levels.getD f 0 - A.last_friend_level ∧ 0 < levels.getD A.id 0 - A.last_level
    then { A with successes := bump A.successes f }
    else A

/-- Embedding of the bookkeeping closing both bandit `pick_friends` bodies
(agents.py lines 201-211 and 245-255): the chosen friend trial counter is
incremented (initialized to 1 on first encounter), a success counter of 0 is
ensured, and the last friend and level caches are refreshed. -/
def bandit_record (A : BanditState) (levels : List ℤ) (friend : ℕ) : BanditState :=
  let trials2 :=
    match alookup A.trials friend with
    | none => aset A.trials friend 1
    | some v => aset A.trials friend (v + 1)
  let succ2 :=
    match alookup A.successes friend with
    | none => aset A.successes friend 0
    | some _ => A.successes
  { A with trials := trials2, successes := succ2,
           last_friend := some friend,
           last_friend_level := levels.getD friend 0,
           last_level := levels.getD A.id 0 }

/-- Embedding of `Beta_Binomial_Agent.map_probs` (agents.py lines 184-189):
a vector of length `n`, zero everywhere except at recorded partners, where it
holds the MAP estimate `(successes + a) / (trials + a + b)` minus the own
skill, for priors `(a, b)`. Keys at or above `n` (which would raise an index
error in the source) and trial keys without a success entry (which would raise
KeyError) do not occur in reachable states. -/
def bb_map_probs (A : BanditState) (n : ℕ) : List ℚ :=
  (List.range n).map (fun i =>
    match alookup A.trials i, alookup A.successes i with
    | some t, some s =>
      ((s : ℚ) + A.priors.1) / ((t : ℚ) + A.priors.1 + A.priors.2) - A.skill
    | _, _ => 0)

/-- Embedding of `Gamma_Poisson_Agent.map_probs` (agents.py lines 226-233):
with `r = a + successes` and `p = 1 / (1 + b + trials)`, the entry of a
recorded partner is `p * r / (1 - p)` minus the own skill. -/
def gp_map_probs (A : BanditState) (n : ℕ) : List ℚ :=
  (List.range n).map (fun i =>
    match alookup A.trials i, alookup A.successes i with
    | some t, some s =>
      let r := A.priors.1 + (s : ℚ)
      let p := 1 / (1 + A.priors.2 + (t : ℚ))
      p * r / (1 - p) - A.skill
    | _, _ => 0)

/-- Embedding of `Beta_Binomial_Agent.pick_friends` (agents.py lines 191-213):
success attribution, MAP estimation, selection through the inherited
`Strategic_Skilled_Agent.pick_friends`, then counter and cache bookkeeping.
Returns the chosen friend and the updated agent state. -/
def bb_pick (A : BanditState) (levels : List ℤ) (cap : ℤ) : ℕ × BanditState :=
  let A1 := bandit_attribute A levels
  let skill_levels_map := bb_map_probs A1 levels.length
  let friend := strategic_pick A1.id levels cap skill_levels_map
  (friend, bandit_record A1 levels friend)

/-- Embedding of `Gamma_Poisson_Agent.pick_friends` (agents.py lines 235-257),
identical to the Beta-Binomial body except for the MAP estimator. -/
def gp_pick (A : BanditState) (levels : List ℤ) (cap : ℤ) : ℕ × BanditState :=
  let A1 := bandit_attribute A levels
  let skill_levels_map := gp_map_probs A1 levels.length
  let friend := strategic_pick A1.id levels cap skill_levels_map
  (friend, bandit_record A1 levels friend)

/-- Embedding of the bandit `__init__` bodies (agents.py lines 174-182 and
216-224): empty counter dicts, no last friend, cached own level. -/
def bandit_init (id : ℕ) (level : ℤ) (skill : ℚ) (priors : ℚ × ℚ) : BanditState :=
  ⟨id, skill, [], [], none, 0, level, priors⟩

/-- Core counter invariant of the bandit agents: the trial and success dicts
have the same key set, every recorded trial count is at least 1, and every
success count is at most the matching trial count. -/
def CountersOk (trials successes : List (ℕ × ℕ)) : Prop :=
  (∀ k, (alookup trials k).isSome ↔ (alookup successes k).isSome)
  ∧ (∀ k v, alookup trials k = some v → 1 ≤ v)
  ∧ (∀ k tv sv, alookup trials k = some tv → alookup successes k = some sv → sv ≤ tv)

/-- Invariant of the bandit agent state maintained by both bandit agents:
the counters satisfy `CountersOk` and the cached last friend (when present)
is recorded with strictly fewer successes than trials. -/
def BanditInv (A : BanditState) : Prop :=
  CountersOk A.trials A.successes
  ∧ (∀ f, A.last_friend = some f →
      ∃ tv sv, alookup A.trials f = some tv ∧ alookup A.successes f = some sv ∧ sv < tv)

/-! Helper lemmas about the level-increment embedding. -/

theorem length_addAt (l : List ℤ) (k : ℕ) (c : ℤ) : (addAt l k c).length = l.length := by
  induction l generalizing k with
  | nil => rfl
  | cons x xs ih =>
    cases k with
    | zero => rfl
    | succ kk => simpa [addAt] using ih kk

theorem getD_addAt (l : List ℤ) (k i : ℕ) (c : ℤ) :
    (addAt l k c).getD i 0 = l.getD i 0 + if i = k ∧ k < l.length then c else 0 := by
  induction l generalizing k i with
  | nil => simp [addAt]
  | cons x xs ih =>
    cases k with
    | zero =>
      cases i with
      | zero => simp [addAt]
      | succ j => simp [addAt]
    | succ kk =>
      cases i with
      | zero => simp [addAt]
      | succ j =>
        simp only [addAt, List.getD_cons_succ, List.length_cons,
          Nat.succ_lt_succ_iff, Nat.succ.injEq]
        exact ih kk j

theorem length_applyInc (l : List ℤ) (k f : ℕ) (c : ℤ) :
    (applyInc l k f c).length = l.length := by
  unfold applyInc
  rw [length_addAt, length_addAt]

theorem getD_applyInc (l : List ℤ) (k f : ℕ) (c : ℤ) (i : ℕ) :
    (applyInc l k f c).getD i 0 =
      l.getD i 0 + (if i = k ∧ k < l.length then c else 0)
        + (if i = f ∧ f < l.length then c else 0) := by
  unfold applyInc
  rw [getD_addAt, getD_addAt, length_addAt]

theorem getD_applyInc_ge (l : List ℤ) (k f : ℕ) (c : ℤ) (hc : 0 ≤ c) (i : ℕ) :
    l.getD i 0 ≤ (applyInc l k f c).getD i 0 := by
  rw [getD_applyInc]
  have h1 : 0 ≤ if i = k ∧ k < l.length then c else 0 := by positivity
  have h2 : 0 ≤ if i = f ∧ f < l.length then c else 0 := by positivity
  omega

/-! Claim theorems. -/

unseal Rat.add Rat.mul Rat.inv Rat.sub in
/-- C1: the claim states that every agent variant only ever returns a partner
index different from its own id. This fails for the Q-Learning agent, whose
`pick_friends` returns a raw epsilon-greedy action from `0 .. output_dim - 1`
with no self-exclusion: a freshly constructed Q agent with id 0, default
parameters (epsilon 0.1, alpha 0.05, gamma 0.9) and action set `[0, 1]`
(the `output_dim = num_players - 1 = 2` of a 3-player mechanism), on levels
`(0, 0, 0)` with cap 10, given an epsilon draw of 1/2 (greedy branch) and a
tie-break draw selecting position 0 of the maximal-value actions `[0, 1]`,
returns action 0, its own id. The Baseline mechanism assertion
`friend != player.id` would then fail, so the code contradicts its own
assertion and the claim marks a code bug. -/
theorem c1_qagent_picks_self :
    (q_pick ⟨0, none, none, none, 0, [0, 1], [], 1/10, 1/20, 9/10⟩ [0, 0, 0] 10 (1/2) 0).1
      = (⟨0, none, none, none, 0, [0, 1], [], 1/10, 1/20, 9/10⟩ : QAgent).id := by
  decide

/-- C2, counterexample: with reward policy WOT and a terminal round (cap 5,
new levels `[5, 1, 0]`), `Game.reward` makes no `accept_reward` calls at all:
the terminal if/elif chain covers only WINNERTAKEALL, PROPORTIONAL and
RANKED. In particular the calls differ from the WINNERTAKEALL distribution
the claim asserts. -/
theorem c2_wot_terminal_counterexample :
    game_reward "WOT" [0, 1, 2] 5 0 [4, 0, 0] [5, 1, 0] = [] ∧
    game_reward "WOT" [0, 1, 2] 5 0 [4, 0, 0] [5, 1, 0] ≠
      game_reward "WINNERTAKEALL" [0, 1, 2] 5 0 [4, 0, 0] [5, 1, 0] := by
  decide

/-- C2, amended: when the reward policy is WOT and the round is terminal
(some new level at or above the cap), `Game.reward` distributes nothing:
no player receives any `accept_reward` call. -/
theorem c2_wot_terminal_no_rewards (ids : List ℕ) (cap : ℤ) (kingId : ℕ)
    (old_levels new_levels : List ℤ) (h : game_over cap new_levels = true) :
    game_reward "WOT" ids cap kingId old_levels new_levels = [] := by
  simp [game_reward, h]

/-- Witness for `c2_wot_terminal_no_rewards` at a concrete terminal round. -/
theorem c2_wot_terminal_no_rewards_witness :
    game_over 5 [6, 0, 0] = true ∧
    game_reward "WOT" [0, 1, 2] 5 1 [5, 0, 0] [6, 0, 0] = [] :=
  ⟨by decide, c2_wot_terminal_no_rewards [0, 1, 2] 5 1 [5, 0, 0] [6, 0, 0] (by decide)⟩

/-- C3, counterexample: the claim states that every mechanism variant fails
an assertion when the king agent picks itself. The Skill-Weighted and
Sabotage-Aware `play` bodies contain no such assertion: with a king agent
that picks itself (king 0, skills `[1, 1, 1]`, levels `[0, 0, 0]`, cap 5, a
sampler returning 1), both proceed to sample and apply the increment, the
king entry receiving it twice. -/
theorem c3_no_assert_counterexample :
    skill_play (fun _ => 1) (fun _ _ _ => 0) [1, 1, 1] 0 [0, 0, 0] 5 = [2, 0, 0] ∧
    sabotage_play (fun _ => 1) (fun _ _ _ => 0) (fun _ _ _ _ => false)
      [1, 1, 1] 0 [0, 0, 0] 5 = [2, 0, 0] := by
  decide

/-- C3, amended: when the king agent picks the king itself, only the Baseline
mechanism play raises the assertion failure and stops before sampling; the
Skill-Weighted and Sabotage-Aware plays perform no check and proceed to
sample and apply the increment (which then lands twice on the king entry). -/
theorem c3_only_baseline_asserts (p : ℚ) (samp : ℚ → ℤ)
    (pickB : List ℤ → ℤ → ℕ) (pickS : List ℤ → ℤ → List ℚ → ℕ)
    (dec : ℕ → List ℤ → ℤ → List ℚ → Bool)
    (skills : List ℚ) (king : ℕ) (levels : List ℤ) (cap : ℤ)
    (hB : pickB levels cap = king) (hS : pickS levels cap skills = king) :
    baseline_play p samp pickB king levels cap =
      Except.error "assertion failed: friend equals king"
    ∧ skill_play samp pickS skills king levels cap =
        applyInc levels king king
          (samp ((skills.getD king 0 + skills.getD king 0) / skills.sum))
    ∧ sabotage_play samp pickS dec skills king levels cap =
        applyInc levels king king
          (samp (if dec king levels cap skills then
                   skills.getD king 0 / (skills.sum - skills.getD king 0)
                 else (skills.getD king 0 + skills.getD king 0) / skills.sum)) := by
  refine ⟨?_, ?_, ?_⟩ <;>
    simp [baseline_play, skill_play, sabotage_play, hB, hS]

/-- Witness for `c3_only_baseline_asserts` with a concrete self-picking
agent. -/
theorem c3_only_baseline_asserts_witness :
    (fun (l : List ℤ) (_ : ℤ) => l.length - 3) [0, 0, 0] 5 = 0
    ∧ (fun (l : List ℤ) (_ : ℤ) (_ : List ℚ) => l.length - 3) [0, 0, 0] 5 [1, 1, 1] = 0
    ∧ baseline_play (1/2) (fun _ => 1) (fun l _ => l.length - 3) 0 [0, 0, 0] 5 =
        Except.error "assertion failed: friend equals king"
    ∧ skill_play (fun _ => 1) (fun l _ _ => l.length - 3) [1, 1, 1] 0 [0, 0, 0] 5 =
        applyInc [0, 0, 0] 0 0
          (((fun _ => 1) : ℚ → ℤ)
            ((([1, 1, 1] : List ℚ).getD 0 0 + ([1, 1, 1] : List ℚ).getD 0 0) / ([1, 1, 1] : List ℚ).sum))
    ∧ sabotage_play (fun _ => 1) (fun l _ _ => l.length - 3) (fun _ _ _ _ => false)
        [1, 1, 1] 0 [0, 0, 0] 5 =
        applyInc [0, 0, 0] 0 0
          (((fun _ => 1) : ℚ → ℤ)
            (if (fun (_ : ℕ) (_ : List ℤ) (_ : ℤ) (_ : List ℚ) => false) 0 [0, 0, 0] 5 [1, 1, 1] then
               ([1, 1, 1] : List ℚ).getD 0 0 / (([1, 1, 1] : List ℚ).sum - ([1, 1, 1] : List ℚ).getD 0 0)
             else (([1, 1, 1] : List ℚ).getD 0 0 + ([1, 1, 1] : List ℚ).getD 0 0) / ([1, 1, 1] : List ℚ).sum)) := by
  refine ⟨by decide, by decide, ?_, ?_, ?_⟩
  · exact (c3_only_baseline_asserts (1/2) (fun _ => 1) (fun l _ => l.length - 3)
      (fun l _ _ => l.length - 3) (fun _ _ _ _ => false) [1, 1, 1] 0 [0, 0, 0] 5
      (by decide) (by decide)).1
  · exact (c3_only_baseline_asserts (1/2) (fun _ => 1) (fun l _ => l.length - 3)
      (fun l _ _ => l.length - 3) (fun _ _ _ _ => false) [1, 1, 1] 0 [0, 0, 0] 5
      (by decide) (by decide)).2.1
  · exact (c3_only_baseline_asserts (1/2) (fun _ => 1) (fun l _ => l.length - 3)
      (fun l _ _ => l.length - 3) (fun _ _ _ _ => false) [1, 1, 1] 0 [0, 0, 0] 5
      (by decide) (by decide)).2.2

/-- C9, counterexample: the claim states that constructing a Game with fewer
than 3 players surfaces a fatal construction error rather than returning a
half-initialized object. The source constructor logs and returns early,
yielding exactly such a half-initialized object: with 2 players the result is
`halfInit 2`, an object on which only `num_players` was assigned, and no
exception is raised. -/
theorem c9_half_init_counterexample :
    game_init [0, 1] 5 "WINNERTAKEALL" 0 = GameInit.halfInit 2 := by
  decide

/-- C9, amended: constructing a Game with fewer than 3 players logs a
critical message and returns early, producing a half-initialized object with
only `num_players` set (not a playable game, but not a raised construction
error either). -/
theorem c9_half_init (ids : List ℕ) (cap : ℤ) (rt : String) (kd : ℕ)
    (h : ids.length < 3) :
    game_init ids cap rt kd = GameInit.halfInit ids.length := by
  simp [game_init, h]

/-- Witness for `c9_half_init` with one player. -/
theorem c9_half_init_witness :
    ([7] : List ℕ).length < 3 ∧ game_init [7] 4 "RANKED" 0 = GameInit.halfInit 1 :=
  ⟨by decide, c9_half_init [7] 4 "RANKED" 0 (by decide)⟩

/-- C5: in the Sabotage-Aware mechanism play, the probability handed to the
sampler is `skill[king] / (sum of skills - skill[friend])` when the chosen
friend declares sabotage and `(skill[king] + skill[friend]) / (sum of skills)`
otherwise, and the single sampled increment is added to both the king entry
and the friend entry of the returned level vector. -/
theorem c5_sabotage_probability (samp : ℚ → ℤ)
    (pickS : List ℤ → ℤ → List ℚ → ℕ) (dec : ℕ → List ℤ → ℤ → List ℚ → Bool)
    (skills : List ℚ) (king : ℕ) (levels : List ℤ) (cap : ℤ)
    (friend : ℕ) (p : ℚ)
    (hf : pickS levels cap skills = friend)
    (hp : p = if dec king levels cap skills then
                skills.getD king 0 / (skills.sum - skills.getD friend 0)
              else (skills.getD king 0 + skills.getD friend 0) / skills.sum) :
    sabotage_play samp pickS dec skills king levels cap =
      applyInc levels king friend (samp p)
    ∧ (king < levels.length → friend < levels.length → king ≠ friend →
        (sabotage_play samp pickS dec skills king levels cap).getD king 0
            = levels.getD king 0 + samp p
        ∧ (sabotage_play samp pickS dec skills king levels cap).getD friend 0
            = levels.getD friend 0 + samp p) := by
  subst hf
  subst hp
  refine ⟨rfl, fun hk1 hf1 hne1 => ⟨?_, ?_⟩⟩
  · show (applyInc levels king _ _).getD king 0 = _
    rw [getD_applyInc]
    simp [hk1, hne1]
  · show (applyInc levels king _ _).getD _ 0 = _
    rw [getD_applyInc]
    simp [hf1, Ne.symm hne1]

unseal Rat.add Rat.mul Rat.inv Rat.sub in
/-- Witness for `c5_sabotage_probability`: king 0 picks friend 1, who
sabotages; skills `[1, 2, 3]`, sampler constantly 4. -/
theorem c5_sabotage_probability_witness :
    (fun (_ : List ℤ) (_ : ℤ) (_ : List ℚ) => 1) [0, 0, 0] (5 : ℤ) ([1, 2, 3] : List ℚ) = 1
    ∧ ((1 : ℚ) / (6 - 2)) =
        (if (fun (_ : ℕ) (_ : List ℤ) (_ : ℤ) (_ : List ℚ) => true) 0 [0, 0, 0] 5 [1, 2, 3] then
           ([1, 2, 3] : List ℚ).getD 0 0 / (([1, 2, 3] : List ℚ).sum - ([1, 2, 3] : List ℚ).getD 1 0)
         else (([1, 2, 3] : List ℚ).getD 0 0 + ([1, 2, 3] : List ℚ).getD 1 0) / ([1, 2, 3] : List ℚ).sum)
    ∧ sabotage_play (fun _ => 4) (fun _ _ _ => 1) (fun _ _ _ _ => true) [1, 2, 3] 0 [0, 0, 0] 5 =
        applyInc [0, 0, 0] 0 1 (((fun _ => 4) : ℚ → ℤ) (1 / (6 - 2)))
    ∧ ((0 : ℕ) < ([0, 0, 0] : List ℤ).length → (1 : ℕ) < ([0, 0, 0] : List ℤ).length → (0 : ℕ) ≠ 1 →
        (sabotage_play (fun _ => 4) (fun _ _ _ => 1) (fun _ _ _ _ => true) [1, 2, 3] 0 [0, 0, 0] 5).getD 0 0
            = ([0, 0, 0] : List ℤ).getD 0 0 + ((fun _ => 4) : ℚ → ℤ) (1 / (6 - 2))
        ∧ (sabotage_play (fun _ => 4) (fun _ _ _ => 1) (fun _ _ _ _ => true) [1, 2, 3] 0 [0, 0, 0] 5).getD 1 0
            = ([0, 0, 0] : List ℤ).getD 1 0 + ((fun _ => 4) : ℚ → ℤ) (1 / (6 - 2))) := by
  refine ⟨by decide, by decide, ?_⟩
  exact c5_sabotage_probability (fun _ => 4) (fun _ _ _ => 1) (fun _ _ _ _ => true)
    [1, 2, 3] 0 [0, 0, 0] 5 1 (1 / (6 - 2)) (by decide) (by decide)

/-- C6: for every mechanism variant, when the injected sampler only returns
non-negative increments, every entry of the level vector returned by play is
at least the corresponding entry of the input level vector (for the Baseline
mechanism, whenever play passes its assertion and returns a vector). -/
theorem c6_levels_monotone (p : ℚ) (samp : ℚ → ℤ)
    (pickB : List ℤ → ℤ → ℕ) (pickS : List ℤ → ℤ → List ℚ → ℕ)
    (dec : ℕ → List ℤ → ℤ → List ℚ → Bool)
    (skills : List ℚ) (king : ℕ) (levels : List ℤ) (cap : ℤ)
    (hsamp : ∀ q, 0 ≤ samp q) :
    (∀ out, baseline_play p samp pickB king levels cap = Except.ok out →
        ∀ i, levels.getD i 0 ≤ out.getD i 0)
    ∧ (∀ i, levels.getD i 0 ≤ (skill_play samp pickS skills king levels cap).getD i 0)
    ∧ (∀ i, levels.getD i 0 ≤ (sabotage_play samp pickS dec skills king levels cap).getD i 0) := by
  refine ⟨?_, fun i => getD_applyInc_ge _ _ _ _ (hsamp _) i,
    fun i => getD_applyInc_ge _ _ _ _ (hsamp _) i⟩
  intro out h i
  unfold baseline_play at h
  by_cases hk : pickB levels cap = king
  · simp [hk] at h
  · simp only [hk, if_neg, ite_false] at h
    cases h
    exact getD_applyInc_ge _ _ _ _ (hsamp _) i

/-- Witness for `c6_levels_monotone`: a sampler constantly 1 on a concrete
round of each mechanism. -/
theorem c6_levels_monotone_witness :
    (∀ q : ℚ, 0 ≤ ((fun _ => 1) : ℚ → ℤ) q)
    ∧ ((∀ out, baseline_play (1/2) (fun _ => 1) (fun _ _ => 1) 0 [3, 4, 5] 6 = Except.ok out →
          ∀ i, ([3, 4, 5] : List ℤ).getD i 0 ≤ out.getD i 0)
      ∧ (∀ i, ([3, 4, 5] : List ℤ).getD i 0 ≤
          (skill_play (fun _ => 1) (fun _ _ _ => 1) [1, 2, 3] 0 [3, 4, 5] 6).getD i 0)
      ∧ (∀ i, ([3, 4, 5] : List ℤ).getD i 0 ≤
          (sabotage_play (fun _ => 1) (fun _ _ _ => 1) (fun _ _ _ _ => false) [1, 2, 3] 0 [3, 4, 5] 6).getD i 0)) :=
  ⟨fun _ => by norm_num,
    c6_levels_monotone (1/2) (fun _ => 1) (fun _ _ => 1) (fun _ _ _ => 1)
      (fun _ _ _ _ => false) [1, 2, 3] 0 [3, 4, 5] 6 (fun _ => by norm_num)⟩

/-- Helper for C7: the source loop scan equals a first-match search over the
same candidate order. -/
theorem scanSkills_eq_find (levels : List ℤ) (sl : ℤ) (cap : ℤ)
    (xs : List (ℕ × ℚ)) :
    scanSkills levels sl cap xs
      = (xs.find? (fun c =>
          decide ((levels.getD c.1 0 : ℚ) + (cap : ℚ) / 10 ≤ (sl : ℚ)))).map Prod.fst := by
  induction xs with
  | nil => rfl
  | cons c rest ih =>
    unfold scanSkills
    rw [List.find?_cons]
    by_cases h : (levels.getD c.1 0 : ℚ) + (cap : ℚ) / 10 ≤ (sl : ℚ)
    · rw [if_pos h, decide_eq_true h]
      rfl
    · rw [if_neg h, decide_eq_false h]
      exact ih

/-- C7: the Strategic-Skilled selection equals its specified description:
scan the other players in descending order of skill and return the first
whose level plus the margin `cap / 10` is at most the own level; when none
qualifies, return the lowest-level other player, with ties among
lowest-level candidates broken by the stable sort order (deterministically,
not randomized). -/
theorem c7_strategic_pick_matches_spec (id : ℕ) (levels : List ℤ) (cap : ℤ)
    (skills : List ℚ) :
    strategic_pick id levels cap skills = strategic_pick_spec id levels cap skills := by
  unfold strategic_pick strategic_pick_spec
  simp only [scanSkills_eq_find]
  split <;> split
  · rename_i x1 j hmap x2 c hfind
    rw [hfind, Option.map_some'] at hmap
    exact (Option.some.inj hmap).symm
  · rename_i x1 j hmap x2 hfind
    rw [hfind] at hmap
    exact absurd hmap (by simp)
  · rename_i x1 hmap x2 c hfind
    rw [hfind] at hmap
    exact absurd hmap (by simp)
  · rfl

/-- Helper for C8: looking up the key just assigned. -/
theorem qlookup_qset_self (q : List ((QState × ℕ) × ℚ)) (k : QState × ℕ) (v : ℚ) :
    qlookup (qset q k v) k = some v := by
  induction q with
  | nil => simp [qset, qlookup]
  | cons e rest ih =>
    by_cases h : e.1 = k
    · simp [qset, qlookup, h]
    · simp [qset, qlookup, h, ih]

/-- Helper for C8: assignment leaves every other key unchanged. -/
theorem qlookup_qset_ne (q : List ((QState × ℕ) × ℚ)) (k k2 : QState × ℕ) (v : ℚ)
    (h : k2 ≠ k) : qlookup (qset q k v) k2 = qlookup q k2 := by
  induction q with
  | nil => simp [qset, qlookup, Ne.symm h]
  | cons e rest ih =>
    by_cases he : e.1 = k
    · subst he
      simp [qset, qlookup, Ne.symm h]
    · by_cases he2 : e.1 = k2
      · simp [qset, qlookup, he, he2, h]
      · simp [qset, qlookup, he, he2, ih]

/-- Helper for C8: the Python max of a nonempty list of zeros is zero. -/
theorem maxList_foldl_zeros (ys : List ℚ) (hys : ∀ y ∈ ys, y = (0 : ℚ)) (a : ℚ) (ha : a = 0) :
    ys.foldl (fun a b => if a < b then b else a) a = 0 := by
  induction ys generalizing a with
  | nil => simpa using ha
  | cons y ys ih =>
    have hy : y = 0 := hys y (List.mem_cons_self y ys)
    have hstep : (if a < y then y else a) = 0 := by
      subst ha hy
      simp
    exact ih (fun z hz => hys z (List.mem_cons_of_mem y hz)) _ hstep

/-- Helper for C8: the Python max of a nonempty list of zeros is zero. -/
theorem maxList_zeros (l : List ℚ) (hne : l ≠ []) (hz : ∀ x ∈ l, x = 0) :
    maxList l = 0 := by
  match l, hne with
  | x :: xs, _ =>
    have hx : x = 0 := hz x (List.mem_cons_self x xs)
    show xs.foldl (fun a b => if a < b then b else a) x = 0
    exact maxList_foldl_zeros xs (fun y hy => hz y (List.mem_cons_of_mem x hy)) x hx

/-- C8: calling the Q agent `accept_reward` with done true, after at least one
`pick_friends` call in the episode (so the cached last state and action are
set) and with a table whose keys all carry tuple states (as every key written
by `pick_friends` does), performs exactly one final update at the last
(state, action) pair: the max over actions of the table at the next state
`(0)` is 0, so an unseen pair is set directly to the terminal reward and a
seen pair moves toward `reward + gamma * 0 = reward`; the episode-scoped
fields are then reset, every other table entry is unchanged, and the table
itself persists. -/
theorem c8_terminal_update (A : QAgent) (s : QState) (a : ℕ) (r : ℚ)
    (hs : A.last_state = some s) (ha : A.last_action = some a)
    (hact : A.actions ≠ [])
    (hterm : ∀ x, qlookup A.q (QState.term, x) = none) :
    (q_accept_reward A r true).last_state = none
    ∧ (q_accept_reward A r true).last_action = none
    ∧ (q_accept_reward A r true).last_reward = none
    ∧ (q_accept_reward A r true).step = 0
    ∧ (qlookup A.q (s, a) = none →
        qlookup (q_accept_reward A r true).q (s, a) = some r)
    ∧ (∀ old, qlookup A.q (s, a) = some old →
        qlookup (q_accept_reward A r true).q (s, a) = some (old + A.alpha * (r - old)))
    ∧ (∀ k, k ≠ (s, a) → qlookup (q_accept_reward A r true).q k = qlookup A.q k) := by
  have hq0 : maxList (A.actions.map (fun x => getQ A.q QState.term x)) = 0 := by
    apply maxList_zeros
    · simpa using hact
    · intro y hy
      rcases List.mem_map.1 hy with ⟨x, _, rfl⟩
      simp [getQ, hterm x]
  have hplay : q_accept_reward A r true
      = qreset (learnQ A s a r (r + A.gamma * maxList (A.actions.map (fun x => getQ A.q QState.term x)))) := by
    simp [q_accept_reward, q_learn, hs, ha]
  rw [hplay, hq0]
  have hval : r + A.gamma * 0 = r := by ring
  rw [hval]
  cases hl : qlookup A.q (s, a) with
  | none =>
    refine ⟨rfl, rfl, rfl, rfl, fun _ => ?_, fun old hold => ?_, fun k hk => ?_⟩
    · simp [qreset, learnQ, hl, qlookup_qset_self]
    · exact Option.noConfusion hold
    · simp [qreset, learnQ, hl, qlookup_qset_ne A.q (s, a) k r hk]
  | some old =>
    refine ⟨rfl, rfl, rfl, rfl, fun hnone => ?_, fun old2 hold => ?_, fun k hk => ?_⟩
    · exact Option.noConfusion hnone
    · obtain rfl := Option.some.inj hold
      simp [qreset, learnQ, hl, qlookup_qset_self]
    · simp [qreset, learnQ, hl,
        qlookup_qset_ne A.q (s, a) k (old + A.alpha * (r - old)) hk]

/-- Witness for `c8_terminal_update`: a concrete Q agent mid-episode with a
one-entry table, receiving terminal reward 7. -/
theorem c8_terminal_update_witness :
    (⟨0, some (QState.tup [1, 2]), some 1, some 0, 3, [0, 1],
        [((QState.tup [0, 0], 0), 5)], 1/10, 1/20, 9/10⟩ : QAgent).last_state
        = some (QState.tup [1, 2])
    ∧ (q_accept_reward
        ⟨0, some (QState.tup [1, 2]), some 1, some 0, 3, [0, 1],
          [((QState.tup [0, 0], 0), 5)], 1/10, 1/20, 9/10⟩ 7 true).last_state = none
    ∧ (q_accept_reward
        ⟨0, some (QState.tup [1, 2]), some 1, some 0, 3, [0, 1],
          [((QState.tup [0, 0], 0), 5)], 1/10, 1/20, 9/10⟩ 7 true).step = 0
    ∧ (qlookup (⟨0, some (QState.tup [1, 2]), some 1, some 0, 3, [0, 1],
          [((QState.tup [0, 0], 0), 5)], 1/10, 1/20, 9/10⟩ : QAgent).q (QState.tup [1, 2], 1) = none →
        qlookup (q_accept_reward
          ⟨0, some (QState.tup [1, 2]), some 1, some 0, 3, [0, 1],
            [((QState.tup [0, 0], 0), 5)], 1/10, 1/20, 9/10⟩ 7 true).q (QState.tup [1, 2], 1)
          = some 7)
    ∧ (∀ k, k ≠ (QState.tup [1, 2], 1) →
        qlookup (q_accept_reward
          ⟨0, some (QState.tup [1, 2]), some 1, some 0, 3, [0, 1],
            [((QState.tup [0, 0], 0), 5)], 1/10, 1/20, 9/10⟩ 7 true).q k
          = qlookup (⟨0, some (QState.tup [1, 2]), some 1, some 0, 3, [0, 1],
            [((QState.tup [0, 0], 0), 5)], 1/10, 1/20, 9/10⟩ : QAgent).q k) := by
  have h := c8_terminal_update
    ⟨0, some (QState.tup [1, 2]), some 1, some 0, 3, [0, 1],
      [((QState.tup [0, 0], 0), 5)], 1/10, 1/20, 9/10⟩
    (QState.tup [1, 2]) 1 7 rfl rfl (by simp) (fun x => by simp [qlookup])
  exact ⟨rfl, h.1, h.2.2.2.1, h.2.2.2.2.1, h.2.2.2.2.2.2⟩

/-- Helper for C10: looking up the key just assigned in a counter dict. -/
theorem alookup_aset_self (d : List (ℕ × ℕ)) (k v : ℕ) :
    alookup (aset d k v) k = some v := by
  induction d with
  | nil => simp [aset, alookup]
  | cons e rest ih =>
    by_cases h : e.1 = k
    · simp [aset, alookup, h]
    · simp [aset, alookup, h, ih]

/-- Helper for C10: counter assignment leaves other keys unchanged. -/
theorem alookup_aset_ne (d : List (ℕ × ℕ)) (k k2 v : ℕ) (h : k2 ≠ k) :
    alookup (aset d k v) k2 = alookup d k2 := by
  induction d with
  | nil => simp [aset, alookup, Ne.symm h]
  | cons e rest ih =>
    by_cases he : e.1 = k
    · subst he
      simp [aset, alookup, Ne.symm h]
    · by_cases he2 : e.1 = k2
      · simp [aset, alookup, he, he2, h]
      · simp [aset, alookup, he, he2, ih]

/-- Helper for C10: the success-attribution step preserves the counter
invariant (the attributed friend was recorded with strictly fewer successes
than trials, so its success count may grow by one). -/
theorem countersOk_attribute (A : BanditState) (levels : List ℤ)
    (h : BanditInv A) :
    CountersOk (bandit_attribute A levels).trials (bandit_attribute A levels).successes := by
  obtain ⟨⟨h1, h2, h3⟩, h4⟩ := h
  cases hlf : A.last_friend with
  | none =>
    have he : bandit_attribute A levels = A := by
      unfold bandit_attribute
      rw [hlf]
    rw [he]
    exact ⟨h1, h2, h3⟩
  | some f =>
    obtain ⟨tv, sv, htv, hsv, hlt⟩ := h4 f hlf
    by_cases hc : 0 < levels.getD f 0 - A.last_friend_level ∧ 0 < levels.getD A.id 0 - A.last_level
    · have he : bandit_attribute A levels = { A with successes := aset A.successes f (sv + 1) } := by
        unfold bandit_attribute
        rw [hlf]
        show (if 0 < levels.getD f 0 - A.last_friend_level ∧ 0 < levels.getD A.id 0 - A.last_level
            then { A with successes := bump A.successes f, last_friend := some f } else A) = _
        rw [if_pos hc]
        show { A with successes := bump A.successes f, last_friend := some f } = _
        rw [show bump A.successes f = aset A.successes f (sv + 1) from by simp [bump, hsv]]
      rw [he]
      refine ⟨fun k => ?_, h2, fun k tv2 sv2 htv2 hsv2 => ?_⟩
      · show (alookup A.trials k).isSome ↔ (alookup (aset A.successes f (sv + 1)) k).isSome
        by_cases hk : k = f
        · subst hk
          rw [alookup_aset_self, htv]
          simp
        · rw [alookup_aset_ne _ _ _ _ hk]
          exact h1 k
      · by_cases hk : k = f
        · subst hk
          have htv2 : alookup A.trials k = some tv2 := htv2
          have hsv2 : alookup (aset A.successes k (sv + 1)) k = some sv2 := hsv2
          rw [alookup_aset_self] at hsv2
          obtain rfl := Option.some.inj hsv2
          rw [htv] at htv2
          obtain rfl := Option.some.inj htv2
          omega
        · have htv2 : alookup A.trials k = some tv2 := htv2
          have hsv2 : alookup (aset A.successes f (sv + 1)) k = some sv2 := hsv2
          rw [alookup_aset_ne _ _ _ _ hk] at hsv2
          exact h3 k _ _ htv2 hsv2
    · have he : bandit_attribute A levels = A := by
        unfold bandit_attribute
        rw [hlf]
        show (if 0 < levels.getD f 0 - A.last_friend_level ∧ 0 < levels.getD A.id 0 - A.last_level
            then { A with successes := bump A.successes f, last_friend := some f } else A) = _
        rw [if_neg hc]
      rw [he]
      exact ⟨h1, h2, h3⟩

/-- Helper for C10: the end-of-call bookkeeping establishes the full bandit
invariant from the counter invariant alone. -/
theorem banditInv_record (B : BanditState) (levels : List ℤ) (fr : ℕ)
    (hOk : CountersOk B.trials B.successes) :
    BanditInv (bandit_record B levels fr) := by
  obtain ⟨h1, h2, h3⟩ := hOk
  cases ht : alookup B.trials fr with
  | none =>
    have hs0 : alookup B.successes fr = none := by
      cases hs : alookup B.successes fr with
      | none => rfl
      | some v =>
        have hiff := h1 fr
        rw [ht, hs] at hiff
        simp at hiff
    have he : bandit_record B levels fr =
        { B with trials := aset B.trials fr 1, successes := aset B.successes fr 0,
                 last_friend := some fr, last_friend_level := levels.getD fr 0,
                 last_level := levels.getD B.id 0 } := by
      unfold bandit_record
      rw [ht, hs0]
    rw [he]
    refine ⟨⟨fun k => ?_, fun k v hv => ?_, fun k tv2 sv2 htv2 hsv2 => ?_⟩, fun f hf => ?_⟩
    · show (alookup (aset B.trials fr 1) k).isSome ↔ (alookup (aset B.successes fr 0) k).isSome
      by_cases hk : k = fr
      · subst hk
        rw [alookup_aset_self, alookup_aset_self]
        simp
      · rw [alookup_aset_ne _ _ _ _ hk, alookup_aset_ne _ _ _ _ hk]
        exact h1 k
    · have hv : alookup (aset B.trials fr 1) k = some v := hv
      by_cases hk : k = fr
      · subst hk
        rw [alookup_aset_self] at hv
        obtain rfl := Option.some.inj hv
        omega
      · rw [alookup_aset_ne _ _ _ _ hk] at hv
        exact h2 k v hv
    · have htv2 : alookup (aset B.trials fr 1) k = some tv2 := htv2
      have hsv2 : alookup (aset B.successes fr 0) k = some sv2 := hsv2
      by_cases hk : k = fr
      · subst hk
        rw [alookup_aset_self] at htv2 hsv2
        obtain rfl := Option.some.inj htv2
        obtain rfl := Option.some.inj hsv2
        omega
      · rw [alookup_aset_ne _ _ _ _ hk] at htv2 hsv2
        exact h3 k tv2 sv2 htv2 hsv2
    · obtain rfl : fr = f := Option.some.inj hf
      refine ⟨1, 0, ?_, ?_, by omega⟩
      · show alookup (aset B.trials fr 1) fr = some 1
        exact alookup_aset_self _ _ _
      · show alookup (aset B.successes fr 0) fr = some 0
        exact alookup_aset_self _ _ _
  | some v =>
    have hsome : ∃ sv, alookup B.successes fr = some sv := by
      cases hs : alookup B.successes fr with
      | none =>
        have hiff := h1 fr
        rw [ht, hs] at hiff
        simp at hiff
      | some sv => exact ⟨sv, rfl⟩
    obtain ⟨sv, hs⟩ := hsome
    have he : bandit_record B levels fr =
        { B with trials := aset B.trials fr (v + 1),
                 last_friend := some fr, last_friend_level := levels.getD fr 0,
                 last_level := levels.getD B.id 0 } := by
      unfold bandit_record
      rw [ht, hs]
    rw [he]
    refine ⟨⟨fun k => ?_, fun k v2 hv => ?_, fun k tv2 sv2 htv2 hsv2 => ?_⟩, fun f hf => ?_⟩
    · show (alookup (aset B.trials fr (v + 1)) k).isSome ↔ (alookup B.successes k).isSome
      by_cases hk : k = fr
      · subst hk
        rw [alookup_aset_self, hs]
        simp
      · rw [alookup_aset_ne _ _ _ _ hk]
        exact h1 k
    · have hv : alookup (aset B.trials fr (v + 1)) k = some v2 := hv
      by_cases hk : k = fr
      · subst hk
        rw [alookup_aset_self] at hv
        obtain rfl := Option.some.inj hv
        omega
      · rw [alookup_aset_ne _ _ _ _ hk] at hv
        exact h2 k v2 hv
    · have htv2 : alookup (aset B.trials fr (v + 1)) k = some tv2 := htv2
      have hsv2 : alookup B.successes k = some sv2 := hsv2
      by_cases hk : k = fr
      · subst hk
        rw [alookup_aset_self] at htv2
        obtain rfl := Option.some.inj htv2
        rw [hs] at hsv2
        obtain rfl := Option.some.inj hsv2
        have := h3 k v sv ht hs
        omega
      · rw [alookup_aset_ne _ _ _ _ hk] at htv2
        exact h3 k tv2 sv2 htv2 hsv2
    · obtain rfl : fr = f := Option.some.inj hf
      refine ⟨v + 1, sv, ?_, ?_, ?_⟩
      · show alookup (aset B.trials fr (v + 1)) fr = some (v + 1)
        exact alookup_aset_self _ _ _
      · show alookup B.successes fr = some sv
        exact hs
      · have := h3 fr v sv ht hs
        omega

/-- C10: both bandit agents maintain, across every completed `pick_friends`
call, that the trial and success counter dicts share one key set, that every
recorded trial count is at least 1 with 0 ≤ successes ≤ trials, and that the
invariant holds of the freshly constructed agents; consequently, for every
recorded partner of the post-call state, the default-prior (1, 1)
Beta-Binomial MAP estimate `(successes + 1) / (trials + 2)` (the quantity
`bb_map_probs` computes before subtracting the own skill) lies strictly
between 0 and 1. -/
theorem c10_bandit_counters (A : BanditState) (levels : List ℤ) (cap : ℤ)
    (h : BanditInv A) :
    BanditInv (bb_pick A levels cap).2
    ∧ BanditInv (gp_pick A levels cap).2
    ∧ (∀ (i : ℕ) (lv : ℤ) (sk : ℚ) (pr : ℚ × ℚ), BanditInv (bandit_init i lv sk pr))
    ∧ (∀ k tv sv, alookup (bb_pick A levels cap).2.trials k = some tv →
        alookup (bb_pick A levels cap).2.successes k = some sv →
        0 < ((sv : ℚ) + 1) / ((tv : ℚ) + 2) ∧ ((sv : ℚ) + 1) / ((tv : ℚ) + 2) < 1) := by
  have hbb : BanditInv (bb_pick A levels cap).2 :=
    banditInv_record _ levels _ (countersOk_attribute A levels h)
  have hgp : BanditInv (gp_pick A levels cap).2 :=
    banditInv_record _ levels _ (countersOk_attribute A levels h)
  refine ⟨hbb, hgp, fun i lv sk pr => ?_, fun k tv sv htv hsv => ?_⟩
  · exact ⟨⟨fun k => by simp [bandit_init, alookup],
      fun k v hv => by simp [bandit_init, alookup] at hv,
      fun k tv sv htv hsv => by simp [bandit_init, alookup] at htv⟩,
      fun f hf => by simp [bandit_init] at hf⟩
  · obtain ⟨⟨h1, h2, h3⟩, _⟩ := hbb
    have htv1 : 1 ≤ tv := h2 k tv htv
    have hle : sv ≤ tv := h3 k tv sv htv hsv
    have hd : (0 : ℚ) < (tv : ℚ) + 2 := by positivity
    constructor
    · positivity
    · rw [div_lt_one hd]
      have : (sv : ℚ) < (tv : ℚ) + 1 := by
        exact_mod_cast Nat.lt_succ_of_le hle
      linarith

/-- Witness for `c10_bandit_counters`: a freshly constructed Beta-Binomial
agent (id 0, level 0, skill 1/2, default priors) picking on levels
`[0, 1, 2]` with cap 10. -/
theorem c10_bandit_counters_witness :
    BanditInv (bandit_init 0 0 (1/2) (1, 1))
    ∧ (BanditInv (bb_pick (bandit_init 0 0 (1/2) (1, 1)) [0, 1, 2] 10).2
      ∧ BanditInv (gp_pick (bandit_init 0 0 (1/2) (1, 1)) [0, 1, 2] 10).2
      ∧ (∀ (i : ℕ) (lv : ℤ) (sk : ℚ) (pr : ℚ × ℚ), BanditInv (bandit_init i lv sk pr))
      ∧ (∀ k tv sv,
          alookup (bb_pick (bandit_init 0 0 (1/2) (1, 1)) [0, 1, 2] 10).2.trials k = some tv →
          alookup (bb_pick (bandit_init 0 0 (1/2) (1, 1)) [0, 1, 2] 10).2.successes k = some sv →
          0 < ((sv : ℚ) + 1) / ((tv : ℚ) + 2) ∧ ((sv : ℚ) + 1) / ((tv : ℚ) + 2) < 1)) := by
  have hinv : BanditInv (bandit_init 0 0 (1/2) (1, 1)) :=
    ⟨⟨fun k => by simp [bandit_init, alookup],
      fun k v hv => by simp [bandit_init, alookup] at hv,
      fun k tv sv htv hsv => by simp [bandit_init, alookup] at htv⟩,
      fun f hf => by simp [bandit_init] at hf⟩
  exact ⟨hinv, c10_bandit_counters (bandit_init 0 0 (1/2) (1, 1)) [0, 1, 2] 10 hinv⟩

/-- Helper for C4: a Bernoulli draw is non-negative. -/
theorem sample_bernoulli_nonneg (u p : ℚ) : 0 ≤ sample_bernoulli u p := by
  unfold sample_bernoulli
  split <;> omega

/-- Helper for C4: a Bernoulli draw is at most one. -/
theorem sample_bernoulli_le_one (u p : ℚ) : sample_bernoulli u p ≤ 1 := by
  unfold sample_bernoulli
  split <;> omega

/-- Helper for C4: at success probability 1, every draw with a deviate below
one succeeds, which is every deviate `np.random.random()` can produce. -/
theorem sample_bernoulli_one (u : ℚ) (h1 : u < 1) : sample_bernoulli u 1 = 1 :=
  if_pos h1

/-- Helper for C4: the loop preserves the length of the level vector. -/
theorem runGame_length (strat : ℕ → List ℤ → ℕ → ℕ) (u : ℕ → ℚ) (p : ℚ) (N : ℕ) :
    ∀ (t : ℕ) (s : List ℤ × ℕ), ((runGame strat u p N t s).1).length = s.1.length := by
  intro t
  induction t with
  | zero => intro s; rfl
  | succ t ih =>
    intro s
    show ((applyInc (runGame strat u p N t s).1 (runGame strat u p N t s).2 _ _).length) = _
    rw [length_applyInc]
    exact ih s

/-- Helper for C4: after `t` rounds the kingship has advanced `t` steps around
the table. -/
theorem runGame_king (strat : ℕ → List ℤ → ℕ → ℕ) (u : ℕ → ℚ) (p : ℚ) (N : ℕ)
    (l0 : List ℤ) (k0 : ℕ) (hk : k0 < N) :
    ∀ t, (runGame strat u p N t (l0, k0)).2 = (k0 + t) % N := by
  intro t
  induction t with
  | zero => exact (Nat.mod_eq_of_lt hk).symm
  | succ t ih =>
    show ((runGame strat u p N t (l0, k0)).2 + 1) % N = (k0 + (t + 1)) % N
    rw [ih]
    have h := (Nat.mod_modEq (k0 + t) N).add_right 1
    simpa [Nat.add_assoc] using h

/-- Helper for C4: each entry of the level vector is non-decreasing in the
round count. -/
theorem runGame_getD_step (strat : ℕ → List ℤ → ℕ → ℕ) (u : ℕ → ℚ) (p : ℚ) (N : ℕ)
    (s : List ℤ × ℕ) (i t : ℕ) :
    (runGame strat u p N t s).1.getD i 0 ≤ (runGame strat u p N (t + 1) s).1.getD i 0 := by
  show (runGame strat u p N t s).1.getD i 0 ≤
    (applyInc (runGame strat u p N t s).1 (runGame strat u p N t s).2 _ _).getD i 0
  exact getD_applyInc_ge _ _ _ _ (sample_bernoulli_nonneg _ _) i

/-- Helper for C4: each entry of the level vector is non-decreasing in the
round count. -/
theorem runGame_getD_mono (strat : ℕ → List ℤ → ℕ → ℕ) (u : ℕ → ℚ) (p : ℚ) (N : ℕ)
    (s : List ℤ × ℕ) (i : ℕ) :
    ∀ t1 t2, t1 ≤ t2 →
      (runGame strat u p N t1 s).1.getD i 0 ≤ (runGame strat u p N t2 s).1.getD i 0 := by
  intro t1 t2 h
  induction h with
  | refl => exact le_refl _
  | step _ ih => exact le_trans ih (runGame_getD_step strat u p N s i _)

/-- Helper for C4: one round adds at most 1 to any entry when the friend is
never the king. -/
theorem getD_applyInc_le_add (l : List ℤ) (k f : ℕ) (c : ℤ) (hkf : k ≠ f)
    (hc1 : c ≤ 1) (i : ℕ) :
    (applyInc l k f c).getD i 0 ≤ l.getD i 0 + 1 := by
  rw [getD_applyInc]
  split_ifs with h1 h2 h3
  · exact absurd (h1.1.symm.trans h2.1) hkf
  · omega
  · omega
  · omega

/-- Helper for C4: every entry of a zero vector reads zero. -/
theorem getD_replicate_zero (n i : ℕ) : (List.replicate n (0 : ℤ)).getD i 0 = 0 := by
  induction n generalizing i with
  | zero => rfl
  | succ m ih =>
    cases i with
    | zero => rfl
    | succ j => exact ih j

/-- Helper for C4: starting from the zero vector, after `t` rounds with valid
(non-self) friend choices no entry exceeds `t`, because each entry gains at
most the one Bernoulli increment per round. -/
theorem runGame_getD_le (strat : ℕ → List ℤ → ℕ → ℕ) (u : ℕ → ℚ) (p : ℚ)
    (N : ℕ) (k0 : ℕ) (hvalid : ∀ t l k, strat t l k ≠ k) :
    ∀ t i, (runGame strat u p N t (List.replicate N 0, k0)).1.getD i 0 ≤ (t : ℤ) := by
  intro t
  induction t with
  | zero =>
    intro i
    rw [show (runGame strat u p N 0 (List.replicate N 0, k0)).1 = List.replicate N 0 from rfl]
    rw [getD_replicate_zero]
    simp
  | succ t ih =>
    intro i
    show (applyInc (runGame strat u p N t (List.replicate N 0, k0)).1
        (runGame strat u p N t (List.replicate N 0, k0)).2 _ _).getD i 0 ≤ ((t : ℤ) + 1)
    refine le_trans (getD_applyInc_le_add _ _ _ _ ?_ (sample_bernoulli_le_one _ _) i) ?_
    · exact (hvalid t _ _).symm
    · have := ih i
      omega

/-- Helper for C4: a round whose king sits at a valid index adds at least one
level to that king when the success probability is 1 and the deviate is a
genuine `np.random.random()` output (below 1). -/
theorem playStep_at_king (strat : ℕ → List ℤ → ℕ → ℕ) (u : ℕ → ℚ) (N t : ℕ)
    (s : List ℤ × ℕ) (hu1 : u t < 1) (hlen : s.2 < s.1.length) :
    s.1.getD s.2 0 + 1 ≤ (playStep strat u 1 N t s).1.getD s.2 0 := by
  show s.1.getD s.2 0 + 1 ≤
    (applyInc s.1 s.2 (strat t s.1 s.2) (sample_bernoulli (u t) 1)).getD s.2 0
  rw [sample_bernoulli_one (u t) hu1, getD_applyInc, if_pos ⟨rfl, hlen⟩]
  have h2 : (0 : ℤ) ≤ if s.2 = strat t s.1 s.2 ∧ strat t s.1 s.2 < s.1.length then 1 else 0 := by
    positivity
  omega

/-- Helper for C4: the initial king is king again at every round index that is
a multiple of the player count, so after `j * N + 1` rounds that player has
been king `j + 1` times and gained at least `j + 1` levels. -/
theorem king_entry_growth (strat : ℕ → List ℤ → ℕ → ℕ) (u : ℕ → ℚ) (N k0 : ℕ)
    (hN : 1 ≤ N) (hk : k0 < N) (hu : ∀ t, 0 ≤ u t ∧ u t < 1) :
    ∀ j : ℕ, (j : ℤ) + 1 ≤
      (runGame strat u 1 N (j * N + 1) (List.replicate N 0, k0)).1.getD k0 0 := by
  have hking : ∀ m, (runGame strat u 1 N (m * N) (List.replicate N 0, k0)).2 = k0 := by
    intro m
    rw [runGame_king strat u 1 N (List.replicate N 0) k0 hk (m * N)]
    rw [Nat.add_mul_mod_self_right]
    exact Nat.mod_eq_of_lt hk
  have hlen : ∀ t, (runGame strat u 1 N t (List.replicate N 0, k0)).1.length = N := by
    intro t
    rw [runGame_length]
    exact List.length_replicate N 0
  have hstep : ∀ m, (runGame strat u 1 N (m * N) (List.replicate N 0, k0)).1.getD k0 0 + 1 ≤
      (runGame strat u 1 N (m * N + 1) (List.replicate N 0, k0)).1.getD k0 0 := by
    intro m
    have h := playStep_at_king strat u N (m * N)
      (runGame strat u 1 N (m * N) (List.replicate N 0, k0)) (hu (m * N)).2
      (by rw [hking m, hlen (m * N)]; exact hk)
    rw [hking m] at h
    exact h
  intro j
  induction j with
  | zero =>
    have h := hstep 0
    rw [Nat.zero_mul] at h ⊢
    have h0 : (runGame strat u 1 N 0 (List.replicate N 0, k0)).1 = List.replicate N 0 := rfl
    rw [h0, getD_replicate_zero] at h
    simpa using h
  | succ j ih =>
    have hmono : (runGame strat u 1 N (j * N + 1) (List.replicate N 0, k0)).1.getD k0 0 ≤
        (runGame strat u 1 N ((j + 1) * N) (List.replicate N 0, k0)).1.getD k0 0 := by
      apply runGame_getD_mono
      have : j * N + 1 ≤ j * N + N := by omega
      calc j * N + 1 ≤ j * N + N := this
        _ = (j + 1) * N := by ring
    have h := hstep (j + 1)
    push_cast
    push_cast at ih
    omega

/-- C4, counterexample: the claim states the Baseline game with p = 1 and cap
C always terminates after exactly C rounds. With 3 players, cap 3, the valid
round-robin strategy in which every king picks the next player (never itself)
and deviates that always succeed, the levels after 3 rounds are [2, 2, 2]: no
player has reached the cap, the loop runs a fourth round, and only then is
the game over. -/
theorem c4_exact_rounds_counterexample :
    (∀ (t : ℕ) (l : List ℤ) (k : ℕ), (k + 1) % 3 ≠ k)
    ∧ game_over 3 (runGame (fun _ _ k => (k + 1) % 3) (fun _ => 0) 1 3 3
        (List.replicate 3 0, 0)).1 = false
    ∧ game_over 3 (runGame (fun _ _ k => (k + 1) % 3) (fun _ => 0) 1 3 4
        (List.replicate 3 0, 0)).1 = true := by
  refine ⟨fun t l k => by omega, by decide, by decide⟩

/-- C4, amended: for the Baseline mechanism with p = 1 and cap C ≥ 1, for
every initial king and every sequence of valid (non-self) friend choices,
`Game.play` runs for at least C rounds (the game is never over earlier) and
at most (C − 1) · N + 1 rounds (by then the initial king has been king C
times and holds at least C levels); termination in exactly C rounds does not
hold in general. -/
theorem c4_round_bounds (strat : ℕ → List ℤ → ℕ → ℕ) (u : ℕ → ℚ)
    (N C k0 : ℕ) (hN : 1 ≤ N) (hC : 1 ≤ C) (hk : k0 < N)
    (hvalid : ∀ t l k, strat t l k ≠ k)
    (hu : ∀ t, 0 ≤ u t ∧ u t < 1) :
    (∀ r, r < C →
      game_over (C : ℤ) (runGame strat u 1 N r (List.replicate N 0, k0)).1 = false)
    ∧ game_over (C : ℤ)
        (runGame strat u 1 N ((C - 1) * N + 1) (List.replicate N 0, k0)).1 = true := by
  constructor
  · intro r hr
    have hbound : ∀ v ∈ (runGame strat u 1 N r (List.replicate N 0, k0)).1, v < (C : ℤ) := by
      intro v hv
      obtain ⟨i, hi, rfl⟩ := List.mem_iff_getElem.1 hv
      have hgd : (runGame strat u 1 N r (List.replicate N 0, k0)).1.getD i 0
          = (runGame strat u 1 N r (List.replicate N 0, k0)).1[i] :=
        List.getD_eq_getElem _ 0 hi
      have hle := runGame_getD_le strat u 1 N k0 hvalid r i
      rw [hgd] at hle
      have : (r : ℤ) < (C : ℤ) := by exact_mod_cast hr
      omega
    simp only [game_over, List.any_eq_false, decide_eq_true_eq]
    intro v hv
    exact not_le.2 (hbound v hv)
  · have hgrow := king_entry_growth strat u N k0 hN hk hu (C - 1)
    have hcast : ((C - 1 : ℕ) : ℤ) = (C : ℤ) - 1 := by
      have : 1 ≤ (C : ℤ) := by exact_mod_cast hC
      omega
    rw [hcast] at hgrow
    have hcap : (C : ℤ) ≤
        (runGame strat u 1 N ((C - 1) * N + 1) (List.replicate N 0, k0)).1.getD k0 0 := by
      omega
    have hlen : k0 < (runGame strat u 1 N ((C - 1) * N + 1) (List.replicate N 0, k0)).1.length := by
      rw [runGame_length]
      simpa using hk
    simp only [game_over, List.any_eq_true, decide_eq_true_eq]
    refine ⟨(runGame strat u 1 N ((C - 1) * N + 1) (List.replicate N 0, k0)).1[k0], ?_, ?_⟩
    · exact List.getElem_mem hlen
    · rw [← List.getD_eq_getElem _ 0 hlen]
      exact hcap

/-- Witness for `c4_round_bounds`: 3 players, cap 1, round-robin non-self
strategy, all deviates 0. -/
theorem c4_round_bounds_witness :
    (1 ≤ 3 ∧ 1 ≤ 1 ∧ 0 < 3)
    ∧ (∀ (t : ℕ) (l : List ℤ) (k : ℕ), (fun (_ : ℕ) (_ : List ℤ) (k : ℕ) => (k + 1) % 3) t l k ≠ k)
    ∧ (∀ t : ℕ, (0 : ℚ) ≤ (fun _ => (0 : ℚ)) t ∧ (fun _ => (0 : ℚ)) t < 1)
    ∧ ((∀ r, r < 1 →
        game_over ((1 : ℕ) : ℤ) (runGame (fun _ _ k => (k + 1) % 3) (fun _ => 0) 1 3 r
          (List.replicate 3 0, 0)).1 = false)
      ∧ game_over ((1 : ℕ) : ℤ)
          (runGame (fun _ _ k => (k + 1) % 3) (fun _ => 0) 1 3 ((1 - 1) * 3 + 1)
            (List.replicate 3 0, 0)).1 = true) := by
  refine ⟨by omega, fun t l k => by show (k + 1) % 3 ≠ k; omega, fun t => by norm_num, ?_⟩
  exact c4_round_bounds (fun _ _ k => (k + 1) % 3) (fun _ => 0) 3 1 0
    (by omega) (by omega) (by omega)
    (fun t l k => by show (k + 1) % 3 ≠ k; omega) (fun t => by norm_num)
